import Mathlib

/-!
Shallow embedding of the NumberInput utility module (`utils.ts`) of the
uikit repository: string sanitizing, pasted-input substring extraction,
value parsing, numeric-constraint validation, internal-state derivation
(min/max swapping) and step clamping.

Conventions of the embedding:
* JavaScript numbers are modelled as exact rationals (`ℚ`).  All the
  arithmetic the claims exercise stays inside the safe-integer range where
  IEEE doubles are exact, so `ℚ` is faithful there.  `NaN` is modelled as a
  separate constructor where the source can receive it.
* `Number.isInteger q` is modelled as `q.den = 1`.
* `undefined` optional arguments are modelled with `Option`.
* JavaScript truthiness of a number (`x ? … : …`, `x || d`) is `q ≠ 0`
  (no `NaN` can arise at those spots in the modelled fragment).
-/

/-- `Number.MAX_SAFE_INTEGER` = 2^53 - 1. -/
def maxSafeInteger : ℚ := 9007199254740991

/-- `Number.MIN_SAFE_INTEGER` = -(2^53 - 1). -/
def minSafeInteger : ℚ := -9007199254740991

/-- The `direction` argument of `clampToNearestStepValue`: `'up' | 'down'`. -/
inductive Direction where
  | up
  | down
deriving DecidableEq

/-- The `ErrorCode` union type of the validator module. -/
inductive ErrorCode where
  | INCORRECT_NUMBER
  | NEGATIVE_VALUE_IS_NOT_ALLOWED
  | FRACTION_IS_NOT_ALLOWED
  | NUMBER_LESS_THAN_MIN_ALLOWED
  | NUMBER_GREATER_THAN_MAX_ALLOWED
deriving DecidableEq

/-- A `number | null` validator argument.  `nan` stands for a number whose
payload is IEEE NaN (`Number.isNaN` is the only operation applied to it). -/
inductive NumberOrNull where
  | null
  | nan
  | num (q : ℚ)
deriving DecidableEq

/-- A `number | null | undefined` value (used by `getInternalState`). -/
inductive JsMaybeNum where
  | undef
  | null
  | num (q : ℚ)
deriving DecidableEq

/-- The character class `\s` of JavaScript regular expressions
(ECMAScript WhiteSpace and LineTerminator code points). -/
def isJsSpace (c : Char) : Bool :=
  decide (c = ' ' ∨ c = '\t' ∨ c = '\n' ∨ c = '\r' ∨ c.toNat = 11 ∨ c.toNat = 12 ∨
    c.toNat = 0xa0 ∨ c.toNat = 0x1680 ∨ (0x2000 ≤ c.toNat ∧ c.toNat ≤ 0x200a) ∨
    c.toNat = 0x2028 ∨ c.toNat = 0x2029 ∨ c.toNat = 0x202f ∨ c.toNat = 0x205f ∨
    c.toNat = 0x3000 ∨ c.toNat = 0xfeff)

/-- `String.prototype.replace(',', '.')` with a string pattern replaces only
the first occurrence. -/
def replaceFirstComma : List Char → List Char
  | [] => []
  | c :: rest => if c = ',' then '.' :: rest else c :: replaceFirstComma rest

/-- `prepareStringValue` (utils.ts, lines 160-165):
`value.replace(',', '.').replace(/\s/g, '').replace(/[^\d.+-]/g, '')`. -/
def prepareStringValue (value : String) : String :=
  String.mk (((replaceFirstComma value.toList).filter (fun c => !isJsSpace c)).filter
    (fun c => c.isDigit || c = '.' || c = '+' || c = '-'))

/-- The four capture groups of `pastedInputParsingRegex`:
`^([-+]?)(?:\D*)(\d*)(\.|,)?(\d*)(?:\D*)$`. -/
structure RegexGroups where
  sign : List Char
  intPart : List Char
  sep : List Char
  fracPart : List Char
deriving DecidableEq

/-- The tail `(\d*)(?:\D*)$` of the pasted-input grammar: a greedy digit run
(the fourth capture group) followed by non-digit noise to the end.  Taking
fewer digits than the maximal run leaves a digit in front of the `\D*` part,
which then cannot reach the end, so the greedy backtracking regex matcher is
deterministic here: the digit group is the maximal digit prefix and the rest
must contain no digit. -/
def tailDigitsNoise (l : List Char) : Option (List Char) :=
  if (l.dropWhile Char.isDigit).all (fun c => !c.isDigit) then
    some (l.takeWhile Char.isDigit)
  else none

/-- The optional third group `(\.|,)?` followed by `(\d*)(?:\D*)$`.
A greedy `?` first tries to consume the separator (a leading `.` or `,`) and
only falls back to the empty alternative when the rest then fails, exactly as
a backtracking matcher does.  Returns the captured separator and fraction
groups. -/
def sepPhase (l : List Char) : Option (List Char × List Char) :=
  match l with
  | c :: rest =>
    if c = '.' ∨ c = ',' then
      match tailDigitsNoise rest with
      | some e => some ([c], e)
      | none => (tailDigitsNoise l).map (fun e => ([], e))
    else (tailDigitsNoise l).map (fun e => ([], e))
  | [] => some ([], [])

/-- The leading group `([-+]?)`: greedily capture one sign character. -/
def signSplit (l : List Char) : List Char × List Char :=
  match l with
  | c :: rest => if c = '-' ∨ c = '+' then ([c], rest) else ([], c :: rest)
  | [] => ([], [])

/-- Executable model of `pastedInputParsingRegex.exec` (utils.ts, line 158):
`/^([-+]?)(?:\D*)(\d*)(\.|,)?(\d*)(?:\D*)$/`.

The backtracking-regex semantics collapse to the following deterministic
procedure.  `([-+]?)` greedily captures a leading sign; moving that sign
character into the following noise group `(?:\D*)` never turns a failing
match into a succeeding one (both groups accept the character and the rest
of the pattern is unchanged), so the greedy choice is final.  `(?:\D*)` then
takes the maximal non-digit run: if the overall match succeeds with a
shorter run, the remaining non-digit character forces the integer-part group
`(\d*)` to be empty, and inspecting the separator cases shows the maximal
run then succeeds as well.  `(\d*)` takes the maximal digit run for the same
reason.  The remainder is handled by `sepPhase`. -/
def pastedInputParsingRegex (s : String) : Option RegexGroups :=
  let sgn := signSplit s.toList
  let afterNoise := sgn.2.dropWhile (fun c => !c.isDigit)
  let intPart := afterNoise.takeWhile Char.isDigit
  let rest := afterNoise.dropWhile Char.isDigit
  (sepPhase rest).map (fun p => ⟨sgn.1, intPart, p.1, p.2⟩)

/-- `getPossibleNumberSubstring` (utils.ts, lines 167-186).  Mirrors the
source's early return `if (!match || (value.length > 0 &&
preparedString.length === 0)) return undefined;`, then builds the result
from the match.  The source joins the participating capture groups:
`[...match].slice(1, allowDecimal ? undefined : 3).filter(Boolean)
.join('')`; dropping falsy entries (empty or absent groups) does not change
the concatenation, so the join is modelled as plain concatenation of the
kept groups. -/
def getPossibleNumberSubstring (value : String) (allowDecimal : Bool) :
    Option String :=
  let preparedString := prepareStringValue value
  let mtch := pastedInputParsingRegex preparedString
  if mtch = none ∨ (0 < value.length ∧ preparedString.length = 0) then none
  else
    mtch.map (fun m => String.mk (m.sign ++ m.intPart ++
      (if allowDecimal then m.sep ++ m.fracPart else [])))

/-- Numeric value of a digit run, most significant digit first. -/
def digitsToNat (l : List Char) : ℕ :=
  l.foldl (fun a c => a * 10 + (c.toNat - '0'.toNat)) 0

/-- Exponent suffix of a JS decimal literal: empty, or `e`/`E`, an optional
sign and a non-empty digit run consuming the rest of the string. -/
def parseExponent (l : List Char) : Option ℤ :=
  match l with
  | [] => some 0
  | c :: r =>
    if c = 'e' ∨ c = 'E' then
      let signed : ℤ × List Char :=
        match r with
        | '+' :: t => (1, t)
        | '-' :: t => (-1, t)
        | _ => (1, r)
      if signed.2 ≠ [] ∧ signed.2.all Char.isDigit then
        some (signed.1 * digitsToNat signed.2)
      else none
    else none

/-- Unsigned part of a JS decimal literal: `D+ | D+ '.' D* | '.' D+`, then an
optional exponent; the whole input must be consumed.  `none` is NaN. -/
def parseUnsignedDecimal (l : List Char) : Option ℚ :=
  let intD := l.takeWhile Char.isDigit
  let r1 := l.dropWhile Char.isDigit
  match r1 with
  | '.' :: r2 =>
    let fracD := r2.takeWhile Char.isDigit
    let r3 := r2.dropWhile Char.isDigit
    if intD = [] ∧ fracD = [] then none
    else
      (parseExponent r3).map (fun e =>
        ((digitsToNat intD : ℚ) + (digitsToNat fracD : ℚ) / 10 ^ fracD.length) *
          (10 : ℚ) ^ e)
  | _ =>
    if intD = [] then none
    else (parseExponent r1).map (fun e => (digitsToNat intD : ℚ) * (10 : ℚ) ^ e)

/-- Model of the JavaScript `Number(string)` coercion on the string shapes
this module can produce: trimmed decimal literals with an optional sign and
exponent, the empty string mapping to `0`, and `none` standing for NaN.
Hexadecimal, binary, octal and `Infinity` literal forms are outside the
strings the claims exercise and map to `none`. -/
def jsStringToNumber (s : String) : Option ℚ :=
  let t := ((s.toList.dropWhile (fun c => isJsSpace c)).reverse.dropWhile
    (fun c => isJsSpace c)).reverse
  match t with
  | [] => some 0
  | '+' :: r => parseUnsignedDecimal r
  | '-' :: r => (parseUnsignedDecimal r).map (fun q => -q)
  | _ => parseUnsignedDecimal t

/-- Return type of `getParsedValue`: `{valid: boolean; value: number | null}`. -/
structure ParsedValueResult where
  valid : Bool
  value : Option ℚ
deriving DecidableEq

/-- `getParsedValue` (utils.ts, lines 188-198).  `undefined` and `''` return
`{valid: true, value: null}`; a NaN parse returns `{valid: false, value:
null}`; otherwise the parsed number is returned with `valid: true`. -/
def getParsedValue (value : Option String) : ParsedValueResult :=
  match value with
  | none => ⟨true, none⟩
  | some v =>
    if v = "" then ⟨true, none⟩
    else
      match jsStringToNumber v with
      | some q => ⟨true, some q⟩
      | none => ⟨false, none⟩

/-- `GetNumericInputValidatorParams` (utils.ts, lines 92-97). -/
structure GetNumericInputValidatorParams where
  positiveOnly : Bool
  withoutFraction : Bool
  min : Option ℚ := none
  max : Option ℚ := none
deriving DecidableEq

/-- The `validator` closure returned by `getNumericInputValidator`
(utils.ts, lines 116-153).  The destructuring defaults substitute
`Number.MIN_SAFE_INTEGER` / `Number.MAX_SAFE_INTEGER` for missing bounds;
no swapping of `min` and `max` happens here. -/
def validator (params : GetNumericInputValidatorParams) (value : NumberOrNull) :
    Option ErrorCode :=
  let min := params.min.getD minSafeInteger
  let max := params.max.getD maxSafeInteger
  match value with
  | .null => none
  | .nan => some .INCORRECT_NUMBER
  | .num q =>
    if params.positiveOnly ∧ q < 0 then some .NEGATIVE_VALUE_IS_NOT_ALLOWED
    else if params.withoutFraction ∧ q.den ≠ 1 then some .FRACTION_IS_NOT_ALLOWED
    else if q < min then some .NUMBER_LESS_THAN_MIN_ALLOWED
    else if q > max then some .NUMBER_GREATER_THAN_MAX_ALLOWED
    else none

/-- `roundIfNecessary` (utils.ts, lines 200-202): `allowDecimal ? value :
Math.floor(value)`. -/
def roundIfNecessary (value : ℚ) (allowDecimal : Bool) : ℚ :=
  if allowDecimal then value else (⌊value⌋ : ℤ)

/-- `value ? roundIfNecessary(value, allowDecimal) : value` for a
`number | null | undefined` value: only a truthy (non-zero) number is
rounded. -/
def roundIfTruthy (v : JsMaybeNum) (allowDecimal : Bool) : JsMaybeNum :=
  match v with
  | .num q => if q ≠ 0 then .num (roundIfNecessary q allowDecimal) else .num q
  | v => v

/-- `VariablesProps` (utils.ts, lines 204-212). -/
structure VariablesProps where
  min : Option ℚ
  max : Option ℚ
  step : ℚ
  shiftMultiplier : ℚ
  value : JsMaybeNum
  defaultValue : JsMaybeNum
  allowDecimal : Bool

/-- Return type of `getInternalState`. -/
structure InternalState where
  min : Option ℚ
  max : Option ℚ
  step : ℚ
  shiftMultiplier : ℚ
  value : JsMaybeNum
  defaultValue : JsMaybeNum
deriving DecidableEq

/-- `getInternalState` (utils.ts, lines 213-250).  The swap condition
`externalMin && externalMax && externalMin > externalMax` only fires when
both bounds are truthy, i.e. present and non-zero; afterwards a falsy
(zero) or out-of-safe-range bound is replaced by `undefined`, and step,
shift multiplier, value and default value are rounded, with the falsy
fallbacks `|| 1` and `|| 10`. -/
def getInternalState (props : VariablesProps) : InternalState :=
  let ranged : Option ℚ × Option ℚ :=
    match props.min, props.max with
    | some a, some b =>
      if a ≠ 0 ∧ b ≠ 0 ∧ a > b then (some b, some a) else (some a, some b)
    | a?, b? => (a?, b?)
  let min := match ranged.1 with
    | some a => if a ≠ 0 ∧ a ≥ minSafeInteger then some a else none
    | none => none
  let max := match ranged.2 with
    | some b => if b ≠ 0 ∧ b ≤ maxSafeInteger then some b else none
    | none => none
  let step0 := roundIfNecessary |props.step| props.allowDecimal
  let step := if step0 = 0 then 1 else step0
  let shift0 := roundIfNecessary props.shiftMultiplier props.allowDecimal
  let shiftMultiplier := if shift0 = 0 then 10 else shift0
  ⟨min, max, step, shiftMultiplier,
    roundIfTruthy props.value props.allowDecimal,
    roundIfTruthy props.defaultValue props.allowDecimal⟩

/-- Body of the step-snapping part of `clampToNearestStepValue` (utils.ts,
lines 277-297), applied after the hard range clamp and the integrality
guard.  `smallerValueIsPreferrable` is `direction ? direction === 'up' :
greater - clamped > clamped - smaller`. -/
def toNearestStepValue (clampedValue base step min max : ℚ)
    (direction : Option Direction) : ℚ :=
  let amountOfStepsDiff : ℤ := ⌊(clampedValue - base) / step⌋
  let stepDeviation : ℚ := clampedValue - base - step * amountOfStepsDiff
  if stepDeviation ≠ 0 then
    let smallerPossibleValue := base + amountOfStepsDiff * step
    let greaterPossibleValue := base + (amountOfStepsDiff + 1) * step
    let smallerValueIsPreferrable : Bool :=
      match direction with
      | some d => decide (d = Direction.up)
      | none => decide (greaterPossibleValue - clampedValue >
          clampedValue - smallerPossibleValue)
    if (greaterPossibleValue > max ∨ smallerValueIsPreferrable = true) ∧
        smallerPossibleValue ≥ min then
      smallerPossibleValue
    else if greaterPossibleValue ≤ max then greaterPossibleValue
    else clampedValue
  else clampedValue

/-- `clampToNearestStepValue` (utils.ts, lines 252-299).
`base = originalMin || 0` is `min?.getD 0` (an explicit zero minimum is
falsy and also yields base 0, the same value); `min = originalMin ??
MIN_SAFE_INTEGER` and the defaulted `max` parameter are `getD`;
`Number.isInteger` on the exact rational model is `den = 1`. -/
def clampToNearestStepValue (value step : ℚ) (min? max? : Option ℚ)
    (direction : Option Direction) : ℚ :=
  let max := max?.getD maxSafeInteger
  let base := min?.getD 0
  let min := min?.getD minSafeInteger
  let clampedValue := if value > max then max else if value < min then min else value
  if value.den = 1 ∧ step.den = 1 then
    toNearestStepValue clampedValue base step min max direction
  else clampedValue

/-! ### Helper lemmas about the step clamper -/

theorem toNearestStepValue_range (c step m M : ℚ) (dir : Option Direction)
    (hstep : 0 < step) (hm : m ≤ c) (hM : c ≤ M) :
    m ≤ toNearestStepValue c m step m M dir ∧
      toNearestStepValue c m step m M dir ≤ M := by
  have hstep0 : step ≠ 0 := ne_of_gt hstep
  simp only [toNearestStepValue]
  set k : ℤ := ⌊(c - m) / step⌋ with hk
  have h1 : (k : ℚ) * step ≤ c - m := by
    have h := Int.floor_le ((c - m) / step)
    rw [← hk] at h
    calc (k : ℚ) * step ≤ (c - m) / step * step :=
          mul_le_mul_of_nonneg_right h (le_of_lt hstep)
      _ = c - m := div_mul_cancel₀ _ hstep0
  have h2 : c - m < ((k : ℚ) + 1) * step := by
    have h := Int.lt_floor_add_one ((c - m) / step)
    rw [← hk] at h
    calc c - m = (c - m) / step * step := (div_mul_cancel₀ _ hstep0).symm
      _ < ((k : ℚ) + 1) * step := mul_lt_mul_of_pos_right h hstep
  split_ifs with hdev hcond hgle
  · exact ⟨hcond.2, by linarith⟩
  · exact ⟨by linarith, hgle⟩
  · exact ⟨hm, hM⟩
  · exact ⟨hm, hM⟩

theorem toNearestStepValue_lattice (c s m M : ℤ) (dir : Option Direction)
    (hs : 0 < s) (hm : m ≤ c) :
    ∃ j : ℤ, toNearestStepValue (c : ℚ) (m : ℚ) (s : ℚ) (m : ℚ) (M : ℚ) dir =
      ((m + j * s : ℤ) : ℚ) := by
  have hsQ : (0 : ℚ) < (s : ℚ) := by exact_mod_cast hs
  simp only [toNearestStepValue]
  set k : ℤ := ⌊((c : ℚ) - (m : ℚ)) / (s : ℚ)⌋ with hk
  have hknn : 0 ≤ k := by
    rw [hk]
    apply Int.floor_nonneg.mpr
    apply div_nonneg _ (le_of_lt hsQ)
    have hmc : (m : ℚ) ≤ (c : ℚ) := by exact_mod_cast hm
    linarith
  split_ifs with hdev hcond hgle
  · exact ⟨k, by push_cast; ring⟩
  · exact ⟨k + 1, by push_cast; ring⟩
  · exfalso
    apply hcond
    refine ⟨Or.inl (lt_of_not_le hgle), ?_⟩
    have hks : (0 : ℚ) ≤ (k : ℚ) * (s : ℚ) :=
      mul_nonneg (by exact_mod_cast hknn) (le_of_lt hsQ)
    linarith
  · refine ⟨k, ?_⟩
    have hdev0 : (c : ℚ) - (m : ℚ) - (s : ℚ) * (k : ℚ) = 0 := not_not.mp hdev
    push_cast
    linear_combination hdev0

theorem clamp_eq_core_of_bounds (v s m M : ℤ) (dir : Option Direction)
    (h1 : m ≤ v) (h2 : v ≤ M) :
    clampToNearestStepValue (v : ℚ) (s : ℚ) (some (m : ℚ)) (some (M : ℚ)) dir =
      toNearestStepValue (v : ℚ) (m : ℚ) (s : ℚ) (m : ℚ) (M : ℚ) dir := by
  simp only [clampToNearestStepValue, Option.getD_some]
  rw [if_neg (not_lt.mpr (by exact_mod_cast h2 : (v : ℚ) ≤ (M : ℚ)))]
  rw [if_neg (not_lt.mpr (by exact_mod_cast h1 : (m : ℚ) ≤ (v : ℚ)))]
  rw [if_pos ⟨Rat.den_intCast v, Rat.den_intCast s⟩]

theorem clampToNearestStepValue_int_cases (v s m M : ℤ) (dir : Option Direction)
    (hmM : m ≤ M) :
    ∃ c : ℤ, m ≤ c ∧ c ≤ M ∧
      clampToNearestStepValue (v : ℚ) (s : ℚ) (some (m : ℚ)) (some (M : ℚ)) dir =
        toNearestStepValue (c : ℚ) (m : ℚ) (s : ℚ) (m : ℚ) (M : ℚ) dir := by
  by_cases h1 : M < v
  · refine ⟨M, hmM, le_refl M, ?_⟩
    have h1Q : (M : ℚ) < (v : ℚ) := by exact_mod_cast h1
    simp only [clampToNearestStepValue, Option.getD_some]
    rw [if_pos h1Q, if_pos ⟨Rat.den_intCast v, Rat.den_intCast s⟩]
  · by_cases h2 : v < m
    · refine ⟨m, le_refl m, hmM, ?_⟩
      have h1Q : ¬ ((M : ℚ) < (v : ℚ)) := fun hc => h1 (by exact_mod_cast hc)
      have h2Q : (v : ℚ) < (m : ℚ) := by exact_mod_cast h2
      simp only [clampToNearestStepValue, Option.getD_some]
      rw [if_neg h1Q, if_pos h2Q, if_pos ⟨Rat.den_intCast v, Rat.den_intCast s⟩]
    · exact ⟨v, not_lt.mp h2, not_lt.mp h1,
        clamp_eq_core_of_bounds v s m M dir (not_lt.mp h2) (not_lt.mp h1)⟩

theorem clampToNearestStepValue_fixed (x s m M j : ℤ) (dir : Option Direction)
    (hs : 0 < s) (hx : x = m + j * s) (h1 : m ≤ x) (h2 : x ≤ M) :
    clampToNearestStepValue (x : ℚ) (s : ℚ) (some (m : ℚ)) (some (M : ℚ)) dir =
      (x : ℚ) := by
  have hs0 : (s : ℚ) ≠ 0 := by
    have hsQ : (0 : ℚ) < (s : ℚ) := by exact_mod_cast hs
    exact ne_of_gt hsQ
  rw [clamp_eq_core_of_bounds x s m M dir h1 h2]
  simp only [toNearestStepValue]
  have hq : ((x : ℚ) - (m : ℚ)) / (s : ℚ) = (j : ℚ) := by
    rw [hx]; push_cast; rw [add_sub_cancel_left]; exact mul_div_cancel_right₀ _ hs0
  rw [hq, Int.floor_intCast]
  have hdev : (x : ℚ) - (m : ℚ) - (s : ℚ) * (j : ℚ) = 0 := by
    rw [hx]; push_cast; ring
  rw [if_neg (fun hcon => hcon hdev)]

/-- C8 (amended): range law of the step clamper.  When both bounds are
supplied with `min ≤ max` and the step is positive (the invariant the
module's own `getInternalState` guarantees), the result of
`clampToNearestStepValue` lies in `[min, max]`.  As stated over all inputs
the law fails (see the counterexample with `min > max`), so the amended
statement adds the hypotheses `min ≤ max` and `0 < step`. -/
theorem clampToNearestStepValue_range_law (value step m M : ℚ)
    (dir : Option Direction) (hstep : 0 < step) (hmM : m ≤ M) :
    m ≤ clampToNearestStepValue value step (some m) (some M) dir ∧
      clampToNearestStepValue value step (some m) (some M) dir ≤ M := by
  simp only [clampToNearestStepValue, Option.getD_some]
  have hc : m ≤ (if value > M then M else if value < m then m else value) ∧
      (if value > M then M else if value < m then m else value) ≤ M := by
    split_ifs with h1 h2
    · exact ⟨hmM, le_refl M⟩
    · exact ⟨le_refl m, hmM⟩
    · exact ⟨not_lt.mp h2, not_lt.mp h1⟩
  by_cases hden : value.den = 1 ∧ step.den = 1
  · rw [if_pos hden]
    exact toNearestStepValue_range _ step m M dir hstep hc.1 hc.2
  · rw [if_neg hden]
    exact hc

theorem clampToNearestStepValue_range_law_witness :
    (0 : ℚ) ≤ clampToNearestStepValue 7 10 (some 0) (some 100) none ∧
      clampToNearestStepValue 7 10 (some 0) (some 100) none ≤ 100 :=
  clampToNearestStepValue_range_law 7 10 0 100 none (by norm_num) (by norm_num)

/-- C8 (counterexample): with both bounds finite but `min > max` (an input
the claim, read literally over all inputs, includes) the result can violate
`min ≤ result`: `clamp(5, step=1, min=10, max=0)` returns `0`, and
`10 ≤ 0` is false. -/
theorem clampToNearestStepValue_range_counterexample :
    clampToNearestStepValue 5 1 (some 10) (some 0) none = 0 ∧
      ¬ (10 ≤ clampToNearestStepValue 5 1 (some 10) (some 0) none) := by
  have h : clampToNearestStepValue 5 1 (some 10) (some 0) none = 0 := by
    norm_num [clampToNearestStepValue, toNearestStepValue, Option.getD_some]
  exact ⟨h, by rw [h]; norm_num⟩

/-- C7 (amended): idempotence of the step clamper for integer value, step
and bounds with `0 < step` and `min ≤ max`.  Without `min ≤ max` the claim
fails (see the counterexample), and with both integer bounds present the
snapped value is itself a lattice point inside the range, hence a fixed
point. -/
theorem clampToNearestStepValue_idempotent (v s m M : ℤ) (hs : 0 < s)
    (hmM : m ≤ M) :
    clampToNearestStepValue
        (clampToNearestStepValue (v : ℚ) (s : ℚ) (some (m : ℚ)) (some (M : ℚ)) none)
        (s : ℚ) (some (m : ℚ)) (some (M : ℚ)) none =
      clampToNearestStepValue (v : ℚ) (s : ℚ) (some (m : ℚ)) (some (M : ℚ)) none := by
  obtain ⟨c, hc1, hc2, hc3⟩ := clampToNearestStepValue_int_cases v s m M none hmM
  obtain ⟨j, hj⟩ := toNearestStepValue_lattice c s m M none hs hc1
  have hr := toNearestStepValue_range (c : ℚ) (s : ℚ) (m : ℚ) (M : ℚ) none
    (by exact_mod_cast hs) (by exact_mod_cast hc1) (by exact_mod_cast hc2)
  rw [hj] at hr
  rw [hc3, hj]
  exact clampToNearestStepValue_fixed (m + j * s) s m M j none hs rfl
    (by exact_mod_cast hr.1) (by exact_mod_cast hr.2)

theorem clampToNearestStepValue_idempotent_witness :
    clampToNearestStepValue
        (clampToNearestStepValue ((5 : ℤ) : ℚ) ((10 : ℤ) : ℚ) (some ((0 : ℤ) : ℚ))
          (some ((100 : ℤ) : ℚ)) none)
        ((10 : ℤ) : ℚ) (some ((0 : ℤ) : ℚ)) (some ((100 : ℤ) : ℚ)) none =
      clampToNearestStepValue ((5 : ℤ) : ℚ) ((10 : ℤ) : ℚ) (some ((0 : ℤ) : ℚ))
        (some ((100 : ℤ) : ℚ)) none :=
  clampToNearestStepValue_idempotent 5 10 0 100 (by norm_num) (by norm_num)

/-- C7 (counterexample): the claim quantifies over all integer `min`, `max`
with `step > 0`; with `min = 10 > 0 = max` the clamper is not idempotent:
`clamp(5, 1, 10, 0) = 0` but `clamp(0, 1, 10, 0) = 10`. -/
theorem clampToNearestStepValue_idempotent_counterexample :
    clampToNearestStepValue 5 1 (some 10) (some 0) none = 0 ∧
      clampToNearestStepValue
          (clampToNearestStepValue 5 1 (some 10) (some 0) none)
          1 (some 10) (some 0) none = 10 ∧
      clampToNearestStepValue
          (clampToNearestStepValue 5 1 (some 10) (some 0) none)
          1 (some 10) (some 0) none ≠
        clampToNearestStepValue 5 1 (some 10) (some 0) none := by
  have h1 : clampToNearestStepValue 5 1 (some 10) (some 0) none = 0 := by
    norm_num [clampToNearestStepValue, toNearestStepValue, Option.getD_some]
  have h2 : clampToNearestStepValue (0 : ℚ) 1 (some 10) (some 0) none = 10 := by
    norm_num [clampToNearestStepValue, toNearestStepValue, Option.getD_some]
  refine ⟨h1, by rw [h1]; exact h2, by rw [h1, h2]; norm_num⟩

theorem offLattice_floor (m k s d : ℤ) (hs : 0 < s) (hd0 : 0 ≤ d) (hd1 : d < s) :
    ⌊(((m + k * s + d : ℤ) : ℚ) - (m : ℚ)) / (s : ℚ)⌋ = k := by
  have hsQ : (0 : ℚ) < (s : ℚ) := by exact_mod_cast hs
  have hd0Q : (0 : ℚ) ≤ (d : ℚ) := by exact_mod_cast hd0
  have hd1Q : (d : ℚ) < (s : ℚ) := by exact_mod_cast hd1
  have hexp : ((k : ℚ) + 1) * (s : ℚ) = (k : ℚ) * (s : ℚ) + (s : ℚ) := by ring
  rw [Int.floor_eq_iff]
  constructor
  · rw [le_div_iff₀ hsQ]
    push_cast
    linarith
  · rw [div_lt_iff₀ hsQ]
    push_cast
    linarith

theorem toNearestStepValue_tie (m k s d : ℤ) (M : ℚ) (hs : 0 < s) (hd0 : 0 < d)
    (htie : 2 * d = s) (hgM : ((m + (k + 1) * s : ℤ) : ℚ) ≤ M) :
    toNearestStepValue ((m + k * s + d : ℤ) : ℚ) (m : ℚ) (s : ℚ) (m : ℚ) M none =
      ((m + (k + 1) * s : ℤ) : ℚ) := by
  have hd1 : d < s := by omega
  have hdQ : (0 : ℚ) < (d : ℚ) := by exact_mod_cast hd0
  have htieQ : 2 * (d : ℚ) = (s : ℚ) := by exact_mod_cast htie
  have hgMQ : (m : ℚ) + ((k : ℚ) + 1) * (s : ℚ) ≤ M := by push_cast at hgM; linarith
  have hexp : ((k : ℚ) + 1) * (s : ℚ) = (k : ℚ) * (s : ℚ) + (s : ℚ) := by ring
  simp only [toNearestStepValue]
  rw [offLattice_floor m k s d hs (le_of_lt hd0) hd1]
  have hdev : ((m + k * s + d : ℤ) : ℚ) - (m : ℚ) - (s : ℚ) * (k : ℚ) = (d : ℚ) := by
    push_cast; ring
  rw [hdev, if_pos (ne_of_gt hdQ)]
  have hC : ¬ (((m : ℚ) + ((k : ℚ) + 1) * (s : ℚ) > M ∨
      decide ((m : ℚ) + ((k : ℚ) + 1) * (s : ℚ) - ((m + k * s + d : ℤ) : ℚ) >
        ((m + k * s + d : ℤ) : ℚ) - ((m : ℚ) + (k : ℚ) * (s : ℚ))) = true) ∧
      (m : ℚ) + (k : ℚ) * (s : ℚ) ≥ (m : ℚ)) := by
    rintro ⟨h | h, -⟩
    · linarith
    · have h2 := of_decide_eq_true h
      push_cast at h2
      linarith
  rw [if_neg hC, if_pos hgMQ]
  push_cast
  ring

theorem toNearestStepValue_up (m k s d : ℤ) (M : ℚ) (hs : 0 < s) (hd0 : 0 < d)
    (hd1 : d < s) (hk : 0 ≤ k) :
    toNearestStepValue ((m + k * s + d : ℤ) : ℚ) (m : ℚ) (s : ℚ) (m : ℚ) M
        (some Direction.up) = ((m + k * s : ℤ) : ℚ) := by
  have hsQ : (0 : ℚ) < (s : ℚ) := by exact_mod_cast hs
  have hdQ : (0 : ℚ) < (d : ℚ) := by exact_mod_cast hd0
  have hks : (0 : ℚ) ≤ (k : ℚ) * (s : ℚ) :=
    mul_nonneg (by exact_mod_cast hk) (le_of_lt hsQ)
  simp only [toNearestStepValue]
  rw [offLattice_floor m k s d hs (le_of_lt hd0) hd1]
  have hdev : ((m + k * s + d : ℤ) : ℚ) - (m : ℚ) - (s : ℚ) * (k : ℚ) = (d : ℚ) := by
    push_cast; ring
  rw [hdev, if_pos (ne_of_gt hdQ)]
  simp only [decide_eq_true_eq, eq_self_iff_true, or_true, true_and]
  rw [if_pos (by linarith : (m : ℚ) + (k : ℚ) * (s : ℚ) ≥ (m : ℚ))]
  push_cast
  ring

theorem toNearestStepValue_down (m k s d : ℤ) (M : ℚ) (hs : 0 < s) (hd0 : 0 < d)
    (hd1 : d < s) (hgM : ((m + (k + 1) * s : ℤ) : ℚ) ≤ M) :
    toNearestStepValue ((m + k * s + d : ℤ) : ℚ) (m : ℚ) (s : ℚ) (m : ℚ) M
        (some Direction.down) = ((m + (k + 1) * s : ℤ) : ℚ) := by
  have hdQ : (0 : ℚ) < (d : ℚ) := by exact_mod_cast hd0
  have hgMQ : (m : ℚ) + ((k : ℚ) + 1) * (s : ℚ) ≤ M := by push_cast at hgM; linarith
  simp only [toNearestStepValue]
  rw [offLattice_floor m k s d hs (le_of_lt hd0) hd1]
  have hdev : ((m + k * s + d : ℤ) : ℚ) - (m : ℚ) - (s : ℚ) * (k : ℚ) = (d : ℚ) := by
    push_cast; ring
  rw [hdev, if_pos (ne_of_gt hdQ)]
  have hC : ¬ (((m : ℚ) + ((k : ℚ) + 1) * (s : ℚ) > M ∨
      decide (Direction.down = Direction.up) = true) ∧
      (m : ℚ) + (k : ℚ) * (s : ℚ) ≥ (m : ℚ)) := by
    rintro ⟨h | h, -⟩
    · linarith
    · exact Direction.noConfusion (of_decide_eq_true h)
  rw [if_neg hC, if_pos hgMQ]
  push_cast
  ring

/-- C1 (counterexample): the claimed tie-break towards the lower boundary is
false on the code: `clamp(5, step=10, min=0, max=100)` returns `10`, not
`0`.  The comparison `greater - clamped > clamped - smaller` is false on a
tie, so `smallerValueIsPreferrable` is false and the upper boundary is
taken. -/
theorem clamp_tie_counterexample :
    clampToNearestStepValue 5 10 (some 0) (some 100) none = 10 ∧
      clampToNearestStepValue 5 10 (some 0) (some 100) none ≠ 0 := by
  have h : clampToNearestStepValue 5 10 (some 0) (some 100) none = 10 := by
    norm_num [clampToNearestStepValue, toNearestStepValue, Option.getD_some,
      decide_eq_true_eq]
  exact ⟨h, by rw [h]; norm_num⟩

/-- C1 (amended): when no direction is given and the value sits exactly half
way between the two adjacent step boundaries (both admissible), the UPPER
boundary is chosen: the strict comparison `greater - value > value - lower`
is false on a tie, so the code falls through to the upper candidate.  In
particular `clamp(5, step=10, min=0, max=100) = 10`. -/
theorem clamp_tie_prefers_upper (m k s d M : ℤ) (hs : 0 < s) (htie : 2 * d = s)
    (hk : 0 ≤ k) (hM : m + (k + 1) * s ≤ M) :
    clampToNearestStepValue ((m + k * s + d : ℤ) : ℚ) (s : ℚ) (some (m : ℚ))
        (some (M : ℚ)) none = ((m + (k + 1) * s : ℤ) : ℚ) := by
  have hd0 : 0 < d := by omega
  have hd1 : d < s := by omega
  have hks : 0 ≤ k * s := mul_nonneg hk (le_of_lt hs)
  have hexp : (k + 1) * s = k * s + s := by ring
  have hv1 : m ≤ m + k * s + d := by linarith
  have hv2 : m + k * s + d ≤ M := by linarith
  rw [clamp_eq_core_of_bounds (m + k * s + d) s m M none hv1 hv2]
  exact toNearestStepValue_tie m k s d (M : ℚ) hs hd0 htie (by exact_mod_cast hM)

theorem clamp_tie_prefers_upper_witness :
    clampToNearestStepValue 5 10 (some 0) (some 100) none = 10 := by
  have h := clamp_tie_prefers_upper 0 0 10 5 100 (by norm_num) (by norm_num)
    (by norm_num) (by norm_num)
  norm_num at h
  exact h

/-- C3 (counterexample): the claimed direction semantics are reversed on the
code: with `direction = 'down'` the clamper returns the UPPER boundary
(`clamp(5, 10, 0, 100, down) = 10 ≠ 0`), and with `direction = 'up'` it
returns the lower one. -/
theorem clamp_direction_counterexample :
    clampToNearestStepValue 5 10 (some 0) (some 100) (some Direction.down) = 10 ∧
      clampToNearestStepValue 5 10 (some 0) (some 100) (some Direction.down) ≠ 0 ∧
      clampToNearestStepValue 5 10 (some 0) (some 100) (some Direction.up) = 0 := by
  have hdown : clampToNearestStepValue 5 10 (some 0) (some 100)
      (some Direction.down) = 10 := by
    norm_num [clampToNearestStepValue, toNearestStepValue, Option.getD_some,
      decide_eq_true_eq]
    decide
  have hup : clampToNearestStepValue 5 10 (some 0) (some 100)
      (some Direction.up) = 0 := by
    norm_num [clampToNearestStepValue, toNearestStepValue, Option.getD_some,
      decide_eq_true_eq]
  exact ⟨hdown, by rw [hdown]; norm_num, hup⟩

/-- C3 (amended): for an off-lattice value the direction semantics of
`smallerValueIsPreferrable = (direction === 'up')` select the LOWER step
boundary when `direction === 'up'` and the upper boundary (subject to
`upper ≤ max`) when `direction === 'down'` — the reverse of the claimed
assignment.  (Callers pre-shift the value by one step, which is why the
flag is named this way.) -/
theorem clamp_direction_semantics (m k s d M : ℤ) (hs : 0 < s) (hd0 : 0 < d)
    (hd1 : d < s) (hk : 0 ≤ k) (hvM : m + k * s + d ≤ M) :
    clampToNearestStepValue ((m + k * s + d : ℤ) : ℚ) (s : ℚ) (some (m : ℚ))
        (some (M : ℚ)) (some Direction.up) = ((m + k * s : ℤ) : ℚ) ∧
      (m + (k + 1) * s ≤ M →
        clampToNearestStepValue ((m + k * s + d : ℤ) : ℚ) (s : ℚ) (some (m : ℚ))
          (some (M : ℚ)) (some Direction.down) = ((m + (k + 1) * s : ℤ) : ℚ)) := by
  have hks : 0 ≤ k * s := mul_nonneg hk (le_of_lt hs)
  have hv1 : m ≤ m + k * s + d := by linarith
  constructor
  · rw [clamp_eq_core_of_bounds _ s m M _ hv1 hvM]
    exact toNearestStepValue_up m k s d (M : ℚ) hs hd0 hd1 hk
  · intro hgM
    rw [clamp_eq_core_of_bounds _ s m M _ hv1 hvM]
    exact toNearestStepValue_down m k s d (M : ℚ) hs hd0 hd1 (by exact_mod_cast hgM)

theorem clamp_direction_semantics_witness :
    clampToNearestStepValue 5 10 (some 0) (some 100) (some Direction.up) = 0 ∧
      clampToNearestStepValue 5 10 (some 0) (some 100) (some Direction.down) = 10 := by
  have h := clamp_direction_semantics 0 0 10 5 100 (by norm_num) (by norm_num)
    (by norm_num) (by norm_num) (by norm_num)
  have h1 := h.1
  have h2 := h.2 (by norm_num)
  norm_num at h1 h2
  exact ⟨h1, h2⟩

/-- C2: the value parser does NOT return a concrete numeric value for
undefined/empty/unparsable candidates — it returns the null sentinel
`{valid, value: null}` in all those cases, contradicting the claimed
`{numericValue: 0, ...}` contract (which is what the module's own test
suite expects: `getParsedValue('') == {parsedValue: 0, isNumberValue:
true}` etc.).  The validity flags do match the claim. -/
theorem getParsedValue_null_sentinel :
    getParsedValue none = ⟨true, none⟩ ∧
      getParsedValue (some "") = ⟨true, none⟩ ∧
      getParsedValue (some "-") = ⟨false, none⟩ ∧
      getParsedValue (some "abc123def") = ⟨false, none⟩ ∧
      getParsedValue (some "123.") = ⟨true, some 123⟩ := by
  refine ⟨rfl, rfl, rfl, rfl, ?_⟩
  show (⟨true, some ((123 + 0 / 10 ^ 0) * 1)⟩ : ParsedValueResult) = ⟨true, some 123⟩
  norm_num

/-- C4: the substring extractor does NOT reject `"$123abc.45k"`:
`prepareStringValue` strips the letters (and the dollar sign) first, the
sanitized string `"123.45"` matches the grammar, and the extractor returns
`some "123.45"` instead of the claimed NoMatch.  This contradicts both the
module's own test (`expect(getPossibleNumberSubstring('$123abc.45k'))
.toBe(undefined)`) and the comment above the regex ("strings with mixed
numbers and letters would be considered as invalid"). -/
theorem getPossibleNumberSubstring_mixed_letters :
    getPossibleNumberSubstring "$123abc.45k" true = some "123.45" ∧
      getPossibleNumberSubstring "$123abc.45k" true ≠ none := by
  have h : getPossibleNumberSubstring "$123abc.45k" true = some "123.45" := rfl
  exact ⟨h, by rw [h]; exact fun hc => Option.noConfusion hc⟩

/-- C5 (counterexample): the validator uses `min`/`max` exactly as supplied,
with no swap: `classify(5, {min: 10, max: 0})` reports
`NUMBER_LESS_THAN_MIN_ALLOWED` while `classify(5, {min: 0, max: 10})`
accepts, so classification is NOT invariant under exchanging the bounds. -/
theorem validator_no_minmax_swap :
    validator ⟨false, false, some 10, some 0⟩ (.num 5) =
        some .NUMBER_LESS_THAN_MIN_ALLOWED ∧
      validator ⟨false, false, some 0, some 10⟩ (.num 5) = none := by
  constructor
  · simp only [validator, Option.getD_some]
    rw [if_neg (by simp), if_neg (by simp), if_pos (by norm_num : (5 : ℚ) < 10)]
  · simp only [validator, Option.getD_some]
    rw [if_neg (by simp), if_neg (by simp),
      if_neg (by norm_num : ¬ (5 : ℚ) < 0), if_neg (by norm_num : ¬ (5 : ℚ) > 10)]

/-- C5 (amended): the min/max swap lives in `getInternalState`, not in the
validator, and it only happens when both bounds are truthy (present and
non-zero): under those hypotheses `getInternalState` is invariant under
exchanging `min` and `max`.  (With a zero bound the swap condition is falsy
and the zero bound is later dropped to `undefined`, so the invariance fails
there, and the validator itself never swaps — see the counterexample.) -/
theorem getInternalState_minmax_swap (a b step shift : ℚ) (v dv : JsMaybeNum)
    (ad : Bool) (ha : a ≠ 0) (hb : b ≠ 0) :
    getInternalState ⟨some a, some b, step, shift, v, dv, ad⟩ =
      getInternalState ⟨some b, some a, step, shift, v, dv, ad⟩ := by
  simp only [getInternalState]
  rcases lt_trichotomy a b with h | h | h
  · rw [if_neg (show ¬ (a ≠ 0 ∧ b ≠ 0 ∧ a > b) from
        fun hc => (not_lt.mpr (le_of_lt h)) hc.2.2),
      if_pos (show b ≠ 0 ∧ a ≠ 0 ∧ b > a from ⟨hb, ha, h⟩)]
  · subst h
    rfl
  · rw [if_pos (show a ≠ 0 ∧ b ≠ 0 ∧ a > b from ⟨ha, hb, h⟩),
      if_neg (show ¬ (b ≠ 0 ∧ a ≠ 0 ∧ b > a) from
        fun hc => (not_lt.mpr (le_of_lt h)) hc.2.2)]

theorem getInternalState_minmax_swap_witness :
    getInternalState ⟨some 10, some 2, 1, 10, JsMaybeNum.null, JsMaybeNum.null, true⟩ =
      getInternalState ⟨some 2, some 10, 1, 10, JsMaybeNum.null, JsMaybeNum.null, true⟩ :=
  getInternalState_minmax_swap 10 2 1 10 JsMaybeNum.null JsMaybeNum.null true
    (by norm_num) (by norm_num)

/-- C6: the validator checks sign, then fraction, then min, then max, and
reports only the first applicable violation; in particular a negative value
under `positiveOnly` always reports `NEGATIVE_VALUE_IS_NOT_ALLOWED`
whatever the other constraints, a config with `positiveOnly` and
`withoutFraction` never accepts a negative or non-integer number, and
`classify(-5.5, {positiveOnly: true, fractionAllowed: false})` reports the
sign violation. -/
theorem validator_check_order (p f : Bool) (mi ma : Option ℚ) (q : ℚ) :
    (p = true → q < 0 →
      validator ⟨p, f, mi, ma⟩ (.num q) = some .NEGATIVE_VALUE_IS_NOT_ALLOWED) ∧
    (¬ (p = true ∧ q < 0) → f = true → q.den ≠ 1 →
      validator ⟨p, f, mi, ma⟩ (.num q) = some .FRACTION_IS_NOT_ALLOWED) ∧
    (¬ (p = true ∧ q < 0) → ¬ (f = true ∧ q.den ≠ 1) → q < mi.getD minSafeInteger →
      validator ⟨p, f, mi, ma⟩ (.num q) = some .NUMBER_LESS_THAN_MIN_ALLOWED) ∧
    ((q < 0 ∨ q.den ≠ 1) → p = true → f = true →
      validator ⟨p, f, mi, ma⟩ (.num q) ≠ none) ∧
    validator ⟨true, true, none, none⟩ (.num (-(11 / 2 : ℚ))) =
      some .NEGATIVE_VALUE_IS_NOT_ALLOWED := by
  refine ⟨?_, ?_, ?_, ?_, ?_⟩
  · intro hp hq
    simp only [validator]
    rw [if_pos ⟨hp, hq⟩]
  · intro h1 hf hden
    simp only [validator]
    rw [if_neg h1, if_pos ⟨hf, hden⟩]
  · intro h1 h2 hmin
    simp only [validator]
    rw [if_neg h1, if_neg h2, if_pos hmin]
  · intro h hp hf
    rcases h with hq | hden
    · simp only [validator]
      rw [if_pos ⟨hp, hq⟩]
      exact fun hc => Option.noConfusion hc
    · by_cases hq : q < 0
      · simp only [validator]
        rw [if_pos ⟨hp, hq⟩]
        exact fun hc => Option.noConfusion hc
      · simp only [validator]
        rw [if_neg (fun hc => hq hc.2), if_pos ⟨hf, hden⟩]
        exact fun hc => Option.noConfusion hc
  · simp only [validator]
    rw [if_pos (show True ∧ (-(11 / 2 : ℚ)) < 0 from ⟨trivial, by norm_num⟩)]

theorem validator_check_order_witness :
    validator ⟨true, true, none, none⟩ (.num (-1)) ≠ none :=
  (validator_check_order true true none none (-1)).2.2.2.1
    (Or.inl (by norm_num)) rfl rfl

/-! ### Helper lemmas about strings and the pasted-input grammar -/

theorem string_eq_empty_iff (s : String) : s = "" ↔ s.data = [] := by
  cases s with
  | mk l =>
    constructor
    · intro h
      have h2 : (String.mk l).data = ("" : String).data := by rw [h]
      exact h2
    · intro h
      have h3 : l = [] := h
      subst h3
      rfl

theorem string_length_pos_iff (s : String) : 0 < s.length ↔ s ≠ "" := by
  rw [Ne, string_eq_empty_iff]
  cases s with
  | mk l =>
    show 0 < l.length ↔ ¬ l = []
    exact List.length_pos

theorem string_length_eq_zero_iff (s : String) : s.length = 0 ↔ s = "" := by
  rw [string_eq_empty_iff]
  cases s with
  | mk l =>
    show l.length = 0 ↔ l = []
    exact List.length_eq_zero

theorem pastedInputParsingRegex_sign_int (s : String) (g : RegexGroups)
    (h : pastedInputParsingRegex s = some g) :
    (g.sign = [] ∨ g.sign = ['-'] ∨ g.sign = ['+']) ∧
      ∀ c ∈ g.intPart, c.isDigit := by
  simp only [pastedInputParsingRegex] at h
  rw [Option.map_eq_some'] at h
  obtain ⟨p, hp, hfp⟩ := h
  subst hfp
  constructor
  · show (signSplit s.toList).1 = [] ∨ (signSplit s.toList).1 = ['-'] ∨
      (signSplit s.toList).1 = ['+']
    cases hl : s.toList with
    | nil =>
      left
      rfl
    | cons c rest =>
      simp only [signSplit]
      by_cases hc : c = '-' ∨ c = '+'
      · rw [if_pos hc]
        rcases hc with hc | hc
        · subst hc; right; left; rfl
        · subst hc; right; right; rfl
      · rw [if_neg hc]
        left
        rfl
  · exact fun c hc => List.mem_takeWhile_imp hc

/-- C9: the substring extractor returns NoMatch (undefined) exactly when the
grammar fails on the sanitized string or the raw string is non-empty while
its sanitized form is empty, and an empty raw string yields the empty
string. -/
theorem getPossibleNumberSubstring_none_iff :
    (∀ (s : String) (d : Bool),
      getPossibleNumberSubstring s d = none ↔
        pastedInputParsingRegex (prepareStringValue s) = none ∨
          (s ≠ "" ∧ prepareStringValue s = "")) ∧
    ∀ d : Bool, getPossibleNumberSubstring "" d = some "" := by
  constructor
  · intro s d
    simp only [getPossibleNumberSubstring]
    have hiff : (0 < s.length ∧ (prepareStringValue s).length = 0) ↔
        (s ≠ "" ∧ prepareStringValue s = "") := by
      rw [string_length_pos_iff, string_length_eq_zero_iff]
    by_cases h : pastedInputParsingRegex (prepareStringValue s) = none ∨
        (0 < s.length ∧ (prepareStringValue s).length = 0)
    · rw [if_pos h]
      constructor
      · intro _
        rcases h with h | h
        · exact Or.inl h
        · exact Or.inr (hiff.mp h)
      · intro _
        rfl
    · rw [if_neg h]
      constructor
      · intro hc
        rw [Option.map_eq_none'] at hc
        exact absurd (Or.inl hc) h
      · intro hc
        rcases hc with hc | hc
        · exact absurd (Or.inl hc) h
        · exact absurd (Or.inr (hiff.mpr hc)) h
  · intro d
    cases d <;> rfl

/-- C10: with `allowDecimal = false` only the sign and integer-part capture
groups are kept, so every string the extractor returns is an optional sign
followed by digits and contains neither a period nor a comma. -/
theorem getPossibleNumberSubstring_no_decimal (s r : String)
    (h : getPossibleNumberSubstring s false = some r) :
    ∃ sgn ds : String,
      (sgn = "" ∨ sgn = "-" ∨ sgn = "+") ∧ (∀ c ∈ ds.toList, c.isDigit) ∧
        r = sgn ++ ds ∧ ∀ c ∈ r.toList, c ≠ '.' ∧ c ≠ ',' := by
  simp only [getPossibleNumberSubstring] at h
  by_cases hcnd : pastedInputParsingRegex (prepareStringValue s) = none ∨
      (0 < s.length ∧ (prepareStringValue s).length = 0)
  · rw [if_pos hcnd] at h
    exact Option.noConfusion h
  · rw [if_neg hcnd] at h
    rw [Option.map_eq_some'] at h
    obtain ⟨g, hm, hg⟩ := h
    have hg2 : String.mk (g.sign ++ g.intPart ++
        (if (false : Bool) then g.sep ++ g.fracPart else [])) = r := hg
    have hr : r = String.mk (g.sign ++ g.intPart) := by
      rw [← hg2]
      have hite : (if (false : Bool) then g.sep ++ g.fracPart else ([] : List Char)) =
          [] := rfl
      rw [hite, List.append_nil]
    obtain ⟨hsign, hdig⟩ := pastedInputParsingRegex_sign_int _ g hm
    refine ⟨String.mk g.sign, String.mk g.intPart, ?_, ?_, ?_, ?_⟩
    · rcases hsign with h1 | h1 | h1 <;> rw [h1]
      · left; rfl
      · right; left; rfl
      · right; right; rfl
    · exact fun c hc => hdig c hc
    · rw [hr]
      rfl
    · intro c hc
      rw [hr] at hc
      have hc2 : c ∈ g.sign ++ g.intPart := hc
      rcases List.mem_append.mp hc2 with h1 | h1
      · rcases hsign with h2 | h2 | h2 <;> rw [h2] at h1
        · exact absurd h1 (List.not_mem_nil c)
        · rw [List.mem_singleton] at h1
          subst h1
          exact ⟨by decide, by decide⟩
        · rw [List.mem_singleton] at h1
          subst h1
          exact ⟨by decide, by decide⟩
      · have hd := hdig c h1
        constructor
        · rintro rfl
          exact absurd hd (by decide)
        · rintro rfl
          exact absurd hd (by decide)

theorem getPossibleNumberSubstring_no_decimal_witness :
    ∃ sgn ds : String,
      (sgn = "" ∨ sgn = "-" ∨ sgn = "+") ∧ (∀ c ∈ ds.toList, c.isDigit) ∧
        "-12" = sgn ++ ds ∧ ∀ c ∈ "-12".toList, c ≠ '.' ∧ c ≠ ',' :=
  getPossibleNumberSubstring_no_decimal "-12.5" "-12" rfl
